import Mathlib

/-!
Verification development for the pomodoro repository.

The store layer is embedded from `src/src/db.js` (sql.js-backed table
`pomodoros`), and the timer engine from `src/src/App.jsx` (the React state
and handlers).  Machine timestamps (`Date.now()`) are `Int` milliseconds;
JavaScript numbers used for durations and countdowns are embedded as `ℚ`.
-/

namespace Pomodoro

/-- JS `String.prototype.trim()`: strip whitespace from both ends
(implemented structurally over the character list). -/
def jsTrim (s : String) : String :=
  ⟨((s.data.dropWhile Char.isWhitespace).reverse.dropWhile
      Char.isWhitespace).reverse⟩

/-- SQL `LIKE 'p%'` / JS `startsWith`: prefix match on the characters. -/
def jsStartsWith (s pre : String) : Bool :=
  pre.data.isPrefixOf s.data

/-- One row of the `pomodoros` table
(`id, name, duration, date, completed, started_at, type`).
`started_at` and `type` are nullable columns, hence `Option`. -/
structure Row where
  id : Nat
  name : String
  duration : ℚ
  date : String
  completed : Bool
  startedAt : Option Int
  type : Option String
deriving DecidableEq

/-- The JS entry object produced by `mapRowToEntry` in `db.js`:
the raw row with the `type` column defaulted (`row[6] || 'pomodoro'`). -/
structure Entry where
  id : Nat
  name : String
  duration : ℚ
  date : String
  completed : Bool
  startedAt : Option Int
  type : String
deriving DecidableEq

/-- JS `row[6] || 'pomodoro'`: `null`/`undefined` and the empty string are
falsy, so both default to `'pomodoro'`. -/
def typeOrDefault : Option String → String
  | none => "pomodoro"
  | some s => if s = "" then "pomodoro" else s

/-- `mapRowToEntry` from `db.js`. -/
def mapRowToEntry (r : Row) : Entry :=
  { id := r.id, name := r.name, duration := r.duration, date := r.date,
    completed := r.completed, startedAt := r.startedAt,
    type := typeOrDefault r.type }

/-- In-memory database: the table rows in insertion (rowid) order plus the
AUTOINCREMENT sequence value for the next `id`. -/
structure Db where
  rows : List Row
  nextId : Nat
deriving DecidableEq

/-- `insertEntry` (the body shared by `addPomodoro`/`addRest`): assigns
`started_at = Date.now()`, the next autoincrement id, appends the row, and
returns `{id, startedAt}`. -/
def insertEntry (db : Db) (name : String) (duration : ℚ) (date : String)
    (type : String) (now : Int) : Db × Nat × Int :=
  (⟨db.rows ++
      [{ id := db.nextId, name := name, duration := duration, date := date,
         completed := false, startedAt := some now, type := some type }],
    db.nextId + 1⟩,
   db.nextId, now)

/-- `addPomodoro(name, duration, date)` from `db.js`. -/
def addPomodoro (db : Db) (name : String) (duration : ℚ) (date : String)
    (now : Int) : Db × Nat × Int :=
  insertEntry db name duration date "pomodoro" now

/-- `addRest(duration, date)` from `db.js`. -/
def addRest (db : Db) (duration : ℚ) (date : String) (now : Int) :
    Db × Nat × Int :=
  insertEntry db "Rest" duration date "rest" now

/-- The per-row effect of `UPDATE pomodoros SET completed = 1 WHERE id = ?`. -/
def completeFn (i : Nat) (r : Row) : Row :=
  if r.id = i then { r with completed := true } else r

/-- `completePomodoro(id)` from `db.js`. -/
def completePomodoro (db : Db) (i : Nat) : Db :=
  { db with rows := db.rows.map (completeFn i) }

/-- SQL `ORDER BY started_at ASC` key comparison; SQL NULLs sort first. -/
def startedLeB : Option Int → Option Int → Bool
  | none, _ => true
  | some _, none => false
  | some x, some y => x ≤ y

/-- Row ordering used by `getPomodorosForDate`. -/
def rowLe (a b : Row) : Prop := startedLeB a.startedAt b.startedAt = true

instance : DecidableRel rowLe := fun a b =>
  decEq (startedLeB a.startedAt b.startedAt) true

/-- `getPomodorosForDate(date)`: rows with the given `date`, ascending by
`started_at`, mapped through `mapRowToEntry`. -/
def getPomodorosForDate (db : Db) (date : String) : List Entry :=
  ((db.rows.filter fun r => decide (r.date = date)).insertionSort rowLe).map
    mapRowToEntry

/-- Row qualification in `getOngoingEntry`'s WHERE clause:
`completed = 0 AND started_at IS NOT NULL`. -/
def qOngoing (r : Row) : Bool := !r.completed && r.startedAt.isSome

/-- `ORDER BY id DESC LIMIT 1`: pick a row of maximal `id`. -/
def pickMaxId : List Row → Option Row
  | [] => none
  | r :: rs =>
    match pickMaxId rs with
    | none => some r
    | some m => if m.id ≤ r.id then some r else some m

/-- `getOngoingEntry()` from `db.js`. -/
def getOngoingEntry (db : Db) : Option Entry :=
  (pickMaxId (db.rows.filter qOngoing)).map mapRowToEntry

/-- JS `String(month).padStart(2, '0')`. -/
def pad2 (n : Nat) : String :=
  if n < 10 then "0" ++ toString n else toString n

/-- The `LIKE` pattern prefix in `getPomodorosForMonth`:
``${year}-${String(month).padStart(2,'0')}`` (the SQL pattern appends `%`,
i.e. prefix match). -/
def monthPattern (year month : Nat) : String :=
  toString year ++ "-" ++ pad2 month

/-- The WHERE clause of `getPomodorosForMonth`:
`date LIKE ? AND type = 'pomodoro' AND completed = 1`.  SQL compares the raw
`type` column, so a NULL `type` never matches. -/
def monthlyMatch (pre : String) (r : Row) : Bool :=
  jsStartsWith r.date pre && decide (r.type = some "pomodoro") && r.completed

/-- `getPomodorosForMonth(year, month)`: `GROUP BY date` with `COUNT(*)`,
returned as an association list (the JS object). -/
def getPomodorosForMonth (db : Db) (year month : Nat) :
    List (String × Nat) :=
  let ds := (db.rows.filter (monthlyMatch (monthPattern year month))).map
    (fun r => r.date)
  ds.dedup.map fun d => (d, ds.count d)

/-- The consumer-side read `monthData[dateStr] || 0` from `App.jsx`. -/
def lookupCount : List (String × Nat) → String → Nat
  | [], _ => 0
  | (k, v) :: rest, d => if k = d then v else lookupCount rest d

/-! ### Snapshot persistence (`saveDb` / `initDb`)

`saveDb` serializes the whole database (`db.export()`) under one
localStorage key; `initDb` deserializes it (`new SQL.Database(data)`) and
runs the additive migration that adds the `type` column when absent.
A serialized cell carries one SQLite storage class. -/

/-- One serialized table cell. -/
inductive Cell where
  | intC : Int → Cell
  | realC : ℚ → Cell
  | textC : String → Cell
  | nullC : Cell
deriving DecidableEq

/-- The serialized database image: the table rows as cell lists, the
autoincrement sequence, and whether the schema has the `type` column. -/
structure Snapshot where
  table : List (List Cell)
  seq : Nat
  hasType : Bool
deriving DecidableEq

/-- Serialize one row of the current (7-column) schema. -/
def encodeRow (r : Row) : List Cell :=
  [Cell.intC r.id, Cell.textC r.name, Cell.realC r.duration,
   Cell.textC r.date, Cell.intC (if r.completed then 1 else 0),
   (match r.startedAt with | none => Cell.nullC | some t => Cell.intC t),
   (match r.type with | none => Cell.nullC | some s => Cell.textC s)]

/-- Deserialize one row of the 7-column schema. -/
def decodeRow : List Cell → Option Row
  | [Cell.intC i, Cell.textC n, Cell.realC q, Cell.textC d, Cell.intC c,
     sCell, tCell] => do
    let st ← match sCell with
      | Cell.nullC => some none
      | Cell.intC t => some (some t)
      | _ => none
    let ty ← match tCell with
      | Cell.nullC => some none
      | Cell.textC s => some (some s)
      | _ => none
    some { id := i.toNat, name := n, duration := q, date := d,
           completed := decide (c ≠ 0), startedAt := st, type := ty }
  | _ => none

/-- Serialize one row of the legacy (6-column, no `type`) schema. -/
def encodeRowLegacy (r : Row) : List Cell :=
  [Cell.intC r.id, Cell.textC r.name, Cell.realC r.duration,
   Cell.textC r.date, Cell.intC (if r.completed then 1 else 0),
   (match r.startedAt with | none => Cell.nullC | some t => Cell.intC t)]

/-- Deserialize one row of the legacy schema; the missing `type` column
reads as NULL. -/
def decodeRowLegacy : List Cell → Option Row
  | [Cell.intC i, Cell.textC n, Cell.realC q, Cell.textC d, Cell.intC c,
     sCell] => do
    let st ← match sCell with
      | Cell.nullC => some none
      | Cell.intC t => some (some t)
      | _ => none
    some { id := i.toNat, name := n, duration := q, date := d,
           completed := decide (c ≠ 0), startedAt := st, type := none }
  | _ => none

/-- `saveDb()` from `db.js`: export the full image.  The live schema always
has the `type` column (fresh schemas create it; migration adds it). -/
def saveDb (db : Db) : Snapshot :=
  ⟨db.rows.map encodeRow, db.nextId, true⟩

/-- The migration branch of `initDb`: `ALTER TABLE pomodoros ADD COLUMN
type TEXT DEFAULT 'pomodoro'` makes every existing row read the constant
default. -/
def runMigrations (db : Db) : Db :=
  { db with rows := db.rows.map fun r => { r with type := some "pomodoro" } }

/-- Row-by-row deserialization of the stored table (all-or-nothing, as
loading a corrupt image fails as a whole). -/
def decodeTable (f : List Cell → Option Row) :
    List (List Cell) → Option (List Row)
  | [] => some []
  | c :: cs => do
    let r ← f c
    let rs ← decodeTable f cs
    some (r :: rs)

/-- The `saved` branch of `initDb()`: deserialize the stored image; if the
`PRAGMA table_info` probe shows no `type` column, run the migration. -/
def initDb (snap : Snapshot) : Option Db :=
  if snap.hasType then
    (decodeTable decodeRow snap.table).map fun rs => ⟨rs, snap.seq⟩
  else
    (decodeTable decodeRowLegacy snap.table).map fun rs =>
      runMigrations ⟨rs, snap.seq⟩

/-! ### Timer engine (`App.jsx`)

The React component state that the claims are about, together with the
handlers and effects that mutate it.  The Web Worker (BackgroundClock) is
modelled by its only observable state, the armed absolute end time:
`postMessage {type:'start', endTime}` arms it, `{type:'stop'}` disarms. -/

/-- The engine state of `App` in `App.jsx` (the fields the persistence and
timer claims depend on; purely presentational fields are omitted). -/
structure AppState where
  db : Db
  activeEntry : Option Entry
  timeLeft : ℚ
  isRunning : Bool
  showTimer : Bool
  completedRef : Option Nat
  worker : Option ℚ
deriving DecidableEq

/-- `calculateRemainingTime` from `App.jsx`:
`max(0, duration*60 - floor((Date.now() - startedAt)/1000))`. -/
def calculateRemainingTime (duration : ℚ) (startedAt : Int) (now : Int) : ℚ :=
  let elapsedSeconds : Int := ⌊((now : ℚ) - (startedAt : ℚ)) / 1000⌋
  let totalSeconds : ℚ := duration * 60
  max 0 (totalSeconds - (elapsedSeconds : ℚ))

/-- `handleStartPomodoro` from `App.jsx`.  The form fields `newName` and the
parsed `parseFloat(newDuration)` are taken as inputs (`duration` is the
parsed number; a NaN parse, like any out-of-range value, is rejected before
this point in the real handler and corresponds to no call being modelled).
Constants: `MIN_DURATION = 0.01`, `MAX_DURATION = 60`. -/
def handleStartPomodoro (s : AppState) (newName : String) (duration : ℚ)
    (currentDateStr : String) (now : Int) : AppState :=
  let trimmedName := jsTrim newName
  if trimmedName = "" ∨ trimmedName.length > 100 then s
  else if duration < 1 / 100 ∨ duration > 60 then s
  else
    let db1 := (addPomodoro s.db trimmedName duration currentDateStr now).1
    { s with
      db := db1,
      activeEntry := getOngoingEntry db1,
      timeLeft := duration * 60,
      isRunning := true,
      showTimer := true,
      worker := some ((now : ℚ) + duration * 60 * 1000) }

/-- The timer-completion effect of `App.jsx` (lines 203-233): fires once
`timeLeft` has reached zero while running; guarded by `completedRef`; on a
`'pomodoro'` entry chains a `REST_DURATION_MINUTES = 5` rest, on a rest
stops the worker and returns to idle. -/
def handleTimerCompletion (s : AppState) (currentDateStr : String)
    (now : Int) : AppState :=
  match s.activeEntry with
  | none => s
  | some e =>
    if s.isRunning = false then s
    else if s.timeLeft > 0 then s
    else if s.completedRef = some e.id then s
    else
      let db1 := completePomodoro s.db e.id
      if e.type = "pomodoro" then
        let db2 := (addRest db1 5 currentDateStr now).1
        { s with
          db := db2,
          completedRef := some e.id,
          activeEntry := getOngoingEntry db2,
          timeLeft := (5 : ℚ) * 60,
          worker := some ((now : ℚ) + 5 * 60 * 1000) }
      else
        { s with
          db := db1,
          completedRef := none,
          isRunning := false,
          activeEntry := none,
          worker := none }

/-- `handleManualComplete` from `App.jsx`. -/
def handleManualComplete (s : AppState) : AppState :=
  match s.activeEntry with
  | none => s
  | some e =>
    { s with
      worker := none,
      db := completePomodoro s.db e.id,
      isRunning := false,
      activeEntry := none,
      showTimer := false }

/-- `handleEntryClick` from `App.jsx`.  JS `!entry.startedAt` is falsy for
both `null` and `0`. -/
def handleEntryClick (s : AppState) (e : Entry) (now : Int) : AppState :=
  if e.completed then s
  else
    match e.startedAt with
    | none => s
    | some t =>
      if t = 0 then s
      else
        let remaining := calculateRemainingTime e.duration t now
        if remaining > 0 then
          match getOngoingEntry s.db with
          | none => s
          | some o =>
            { s with
              activeEntry := some o,
              timeLeft := remaining,
              isRunning := true,
              showTimer := true,
              worker := some ((now : ℚ) + remaining * 1000) }
        else
          { s with db := completePomodoro s.db e.id }

/-- The resume branch of the `initDb().then(...)` effect in `App.jsx`:
restore an ongoing entry whose deadline is still ahead, otherwise mark it
complete without entering the running state.  (`getOngoingEntry`'s WHERE
clause guarantees `started_at IS NOT NULL`, so the `none` branch of the
inner match is unreachable.) -/
def resumeFromPersisted (s : AppState) (now : Int) : AppState :=
  match getOngoingEntry s.db with
  | none => s
  | some o =>
    match o.startedAt with
    | none => s
    | some t =>
      let remaining := calculateRemainingTime o.duration t now
      if remaining > 0 then
        { s with
          activeEntry := some o,
          timeLeft := remaining,
          isRunning := true,
          worker := some ((now : ℚ) + remaining * 1000) }
      else
        { s with db := completePomodoro s.db o.id }

/-- `handleHideTimer` from `App.jsx`. -/
def handleHideTimer (s : AppState) : AppState :=
  { s with showTimer := false }

/-- The engine state at first load with a fresh store (`CREATE TABLE`,
autoincrement starting at 1, everything idle). -/
def initialState : AppState :=
  { db := ⟨[], 1⟩, activeEntry := none, timeLeft := 0, isRunning := false,
    showTimer := false, completedRef := none, worker := none }

/-- States reachable from a fresh load by the engine's operations, exactly
as the code implements them (in particular `handleStartPomodoro` has no
is-running guard).  Besides the command handlers this includes the three
transitions that update the countdown and thereby let the completion
effect fire: the worker's `onmessage` zeroing (`setTimeLeft(0)`,
`App.jsx` 151-156), the once-per-second interval tick
(`setTimeLeft(prev => prev - 1)`, active while running with an active
entry, `App.jsx` 175-183), and the visibility-regain reconciliation
(`setTimeLeft(calculateRemainingTime(activeEntry))`, `App.jsx` 187-200).
The background clock's timing precondition (its deadline having passed)
is abstracted away: the worker may deliver its completion message at any
moment while armed, which only enlarges the reachable set. -/
inductive Reach : AppState → Prop where
  | init : Reach initialState
  | start (s : AppState) (nm : String) (dur : ℚ) (d : String) (now : Int) :
      Reach s → Reach (handleStartPomodoro s nm dur d now)
  | signal (s : AppState) (d : String) (now : Int) :
      Reach s → Reach (handleTimerCompletion s d now)
  | manual (s : AppState) : Reach s → Reach (handleManualComplete s)
  | click (s : AppState) (e : Entry) (d : String) (now : Int) :
      Reach s → e ∈ getPomodorosForDate s.db d →
      Reach (handleEntryClick s e now)
  | resume (s : AppState) (now : Int) :
      Reach s → Reach (resumeFromPersisted s now)
  | hide (s : AppState) : Reach s → Reach (handleHideTimer s)
  | workerComplete (s : AppState) (et : ℚ) :
      Reach s → s.worker = some et → Reach { s with timeLeft := 0 }
  | tick (s : AppState) (e : Entry) :
      Reach s → s.isRunning = true → s.activeEntry = some e →
      Reach { s with timeLeft := s.timeLeft - 1 }
  | reconcile (s : AppState) (e : Entry) (t : Int) (now : Int) :
      Reach s → s.isRunning = true → s.activeEntry = some e →
      e.startedAt = some t →
      Reach { s with timeLeft := calculateRemainingTime e.duration t now }

/-- States reachable when `start` is only issued while the store has no
ongoing entry (the discipline the specification assumes); all other
transitions — including the countdown updates that let the completion
effect fire — are exactly those of `Reach`. -/
inductive ReachIdleStart : AppState → Prop where
  | init : ReachIdleStart initialState
  | start (s : AppState) (nm : String) (dur : ℚ) (d : String) (now : Int) :
      ReachIdleStart s → getOngoingEntry s.db = none →
      ReachIdleStart (handleStartPomodoro s nm dur d now)
  | signal (s : AppState) (d : String) (now : Int) :
      ReachIdleStart s → ReachIdleStart (handleTimerCompletion s d now)
  | manual (s : AppState) :
      ReachIdleStart s → ReachIdleStart (handleManualComplete s)
  | click (s : AppState) (e : Entry) (d : String) (now : Int) :
      ReachIdleStart s → e ∈ getPomodorosForDate s.db d →
      ReachIdleStart (handleEntryClick s e now)
  | resume (s : AppState) (now : Int) :
      ReachIdleStart s → ReachIdleStart (resumeFromPersisted s now)
  | hide (s : AppState) :
      ReachIdleStart s → ReachIdleStart (handleHideTimer s)
  | workerComplete (s : AppState) (et : ℚ) :
      ReachIdleStart s → s.worker = some et →
      ReachIdleStart { s with timeLeft := 0 }
  | tick (s : AppState) (e : Entry) :
      ReachIdleStart s → s.isRunning = true → s.activeEntry = some e →
      ReachIdleStart { s with timeLeft := s.timeLeft - 1 }
  | reconcile (s : AppState) (e : Entry) (t : Int) (now : Int) :
      ReachIdleStart s → s.isRunning = true → s.activeEntry = some e →
      e.startedAt = some t →
      ReachIdleStart
        { s with timeLeft := calculateRemainingTime e.duration t now }

/-- Number of rows with `completed = 0`. -/
def countIncomplete (db : Db) : Nat :=
  db.rows.countP fun r => !r.completed

/-! ### Helper lemmas about the store operations -/

theorem pickMaxId_eq_none {l : List Row} : pickMaxId l = none ↔ l = [] := by
  cases l with
  | nil => simp [pickMaxId]
  | cons r rs =>
    simp only [pickMaxId]
    cases h : pickMaxId rs with
    | none => simp
    | some m =>
      constructor
      · intro hc
        have hc' : (if m.id ≤ r.id then some r else some m) = none := hc
        by_cases hle : m.id ≤ r.id
        · rw [if_pos hle] at hc'; exact absurd hc' (by simp)
        · rw [if_neg hle] at hc'; exact absurd hc' (by simp)
      · intro hc; exact absurd hc (by simp)

theorem pickMaxId_mem {l : List Row} :
    ∀ {m : Row}, pickMaxId l = some m → m ∈ l := by
  induction l with
  | nil => intro m h; simp [pickMaxId] at h
  | cons r rs ih =>
    intro m h
    simp only [pickMaxId] at h
    cases hrs : pickMaxId rs with
    | none => simp [hrs] at h; simp [h]
    | some m' =>
      simp only [hrs] at h
      by_cases hle : m'.id ≤ r.id
      · rw [if_pos hle] at h
        simp at h
        simp [h]
      · rw [if_neg hle] at h
        simp at h
        exact List.mem_cons_of_mem _ (h ▸ ih hrs)

theorem pickMaxId_ge {l : List Row} :
    ∀ {m : Row}, pickMaxId l = some m → ∀ x ∈ l, x.id ≤ m.id := by
  induction l with
  | nil => simp
  | cons r rs ih =>
    intro m h x hx
    simp only [pickMaxId] at h
    cases hrs : pickMaxId rs with
    | none =>
      simp [hrs] at h
      rcases List.mem_cons.mp hx with hxr | hxm
      · subst hxr; exact h ▸ Nat.le_refl _
      · exact absurd hxm (by simp [pickMaxId_eq_none.mp hrs])
    | some m' =>
      simp only [hrs] at h
      by_cases hle : m'.id ≤ r.id
      · rw [if_pos hle] at h
        simp at h
        subst h
        rcases List.mem_cons.mp hx with hxr | hxm
        · subst hxr; exact Nat.le_refl _
        · exact Nat.le_trans (ih hrs x hxm) hle
      · rw [if_neg hle] at h
        simp at h
        subst h
        rcases List.mem_cons.mp hx with hxr | hxm
        · subst hxr; exact Nat.le_of_lt (Nat.lt_of_not_le hle)
        · exact ih hrs x hxm

theorem pickMaxId_append_last {l : List Row} {r : Row}
    (h : ∀ x ∈ l, x.id < r.id) : pickMaxId (l ++ [r]) = some r := by
  induction l with
  | nil => simp [pickMaxId]
  | cons x xs ih =>
    have hx : x.id < r.id := h x (List.mem_cons_self x xs)
    have ih' : pickMaxId (xs ++ [r]) = some r :=
      ih fun y hy => h y (List.mem_cons_of_mem _ hy)
    rw [List.cons_append]
    simp only [pickMaxId, ih']
    rw [if_neg (Nat.not_le_of_lt hx)]

theorem getOngoingEntry_eq_none {db : Db} :
    getOngoingEntry db = none ↔ db.rows.filter qOngoing = [] := by
  unfold getOngoingEntry
  cases h : pickMaxId (db.rows.filter qOngoing) with
  | none => simp [pickMaxId_eq_none.mp h]
  | some m =>
    constructor
    · intro hc; exact absurd hc (by simp)
    · intro hc; rw [hc] at h; simp [pickMaxId] at h

/-- In a store where every row has a start timestamp, `getOngoingEntry`
returns nothing exactly when every row is completed. -/
theorem getOngoingEntry_none_iff_all_completed {db : Db}
    (hst : ∀ r ∈ db.rows, r.startedAt.isSome = true) :
    getOngoingEntry db = none ↔ ∀ r ∈ db.rows, r.completed = true := by
  rw [getOngoingEntry_eq_none, List.filter_eq_nil_iff]
  constructor
  · intro h r hr
    have := h r hr
    simp [qOngoing, hst r hr] at this
    exact this
  · intro h r hr
    simp [qOngoing, h r hr]

/-- Appending a qualifying row with a strictly larger id than every
existing row makes it the ongoing entry. -/
theorem getOngoingEntry_append {rows : List Row} {w : Row} {n : Nat}
    (hq : qOngoing w = true) (hlt : ∀ x ∈ rows, x.id < w.id) :
    getOngoingEntry ⟨rows ++ [w], n⟩ = some (mapRowToEntry w) := by
  unfold getOngoingEntry
  have hf : (rows ++ [w]).filter qOngoing = rows.filter qOngoing ++ [w] := by
    rw [List.filter_append]
    simp [hq]
  rw [hf, pickMaxId_append_last fun x hx =>
    hlt x (List.mem_of_mem_filter hx)]
  rfl

theorem completePomodoro_rows (db : Db) (i : Nat) :
    (completePomodoro db i).rows = db.rows.map (completeFn i) := rfl

theorem completePomodoro_nextId (db : Db) (i : Nat) :
    (completePomodoro db i).nextId = db.nextId := rfl

theorem completeFn_id (i : Nat) (r : Row) : (completeFn i r).id = r.id := by
  unfold completeFn
  by_cases h : r.id = i <;> simp [h]

theorem completeFn_startedAt (i : Nat) (r : Row) :
    (completeFn i r).startedAt = r.startedAt := by
  unfold completeFn
  by_cases h : r.id = i <;> simp [h]

/-- A row that is still incomplete after `completePomodoro db i` is an
unchanged original row whose id differs from `i`. -/
theorem mem_completePomodoro_incomplete {db : Db} {i : Nat} {r' : Row}
    (hmem : r' ∈ (completePomodoro db i).rows)
    (hinc : r'.completed = false) :
    r' ∈ db.rows ∧ r'.id ≠ i := by
  rw [completePomodoro_rows] at hmem
  rcases List.mem_map.mp hmem with ⟨r, hr, hmap⟩
  unfold completeFn at hmap
  by_cases h : r.id = i
  · rw [if_pos h] at hmap
    rw [← hmap] at hinc
    simp at hinc
  · rw [if_neg h] at hmap
    subst hmap
    exact ⟨hr, h⟩

/-- If every row shares one id as soon as it is incomplete, and ids are
strictly increasing along the list, at most one row is incomplete. -/
theorem countP_le_one_of_shared_id {l : List Row} {k : Nat}
    (hpw : l.Pairwise fun a b => a.id < b.id)
    (hshare : ∀ r ∈ l, r.completed = false → r.id = k) :
    (l.countP fun r => !r.completed) ≤ 1 := by
  induction l with
  | nil => simp
  | cons r rs ih =>
    have hpw' := (List.pairwise_cons.mp hpw).2
    have hhead := (List.pairwise_cons.mp hpw).1
    by_cases hc : r.completed = false
    · rw [List.countP_cons_of_pos _ _ (by simp [hc])]
      have hzero : (rs.countP fun r => !r.completed) = 0 := by
        rw [List.countP_eq_zero]
        intro x hx
        simp only [Bool.not_eq_true']
        by_contra hxc
        have hxid : x.id = k :=
          hshare x (List.mem_cons_of_mem _ hx) (by simpa using hxc)
        have hrid : r.id = k := hshare r (List.mem_cons_self _ _) hc
        have := hhead x hx
        omega
      omega
    · have hrc : r.completed = true := by
        cases hcv : r.completed
        · exact absurd hcv hc
        · rfl
      rw [List.countP_cons_of_neg _ _ (by simp [hrc])]
      exact ih hpw' fun x hx hxc =>
        hshare x (List.mem_cons_of_mem _ hx) hxc

/-- The completion effect is a no-op whenever the countdown is positive,
the engine is not running, or no entry is active. -/
theorem handleTimerCompletion_noop {s : AppState} {d : String} {now : Int}
    (h : s.timeLeft > 0 ∨ s.isRunning = false ∨ s.activeEntry = none) :
    handleTimerCompletion s d now = s := by
  cases hact : s.activeEntry with
  | none => simp only [handleTimerCompletion, hact]
  | some e =>
    simp only [handleTimerCompletion, hact]
    rcases h with ht | hr | hn
    · by_cases hr : s.isRunning = false
      · rw [if_pos hr]
      · rw [if_neg hr, if_pos ht]
    · rw [if_pos hr]
    · rw [hact] at hn; exact absurd hn (by simp)

/-- Every outcome of the completion effect is the unchanged state, a state
whose countdown was just reset to the rest duration, or an idle state. -/
theorem handleTimerCompletion_outcome (s : AppState) (d : String)
    (now : Int) :
    handleTimerCompletion s d now = s ∨
    (handleTimerCompletion s d now).timeLeft = (5 : ℚ) * 60 ∨
    (handleTimerCompletion s d now).isRunning = false := by
  cases hact : s.activeEntry with
  | none => left; simp only [handleTimerCompletion, hact]
  | some e =>
    simp only [handleTimerCompletion, hact]
    by_cases hr : s.isRunning = false
    · left; rw [if_pos hr]
    · rw [if_neg hr]
      by_cases ht : s.timeLeft > 0
      · left; rw [if_pos ht]
      · rw [if_neg ht]
        by_cases hg : s.completedRef = some e.id
        · left; rw [if_pos hg]
        · rw [if_neg hg]
          by_cases hp : e.type = "pomodoro"
          · right; left; rw [if_pos hp]
          · right; right; rw [if_neg hp]

/-! ### Claim C2: idempotence of the completion signal -/

/-- Claim C2: handling the completion signal twice in succession produces
the same store state as handling it once, and an invocation whose active
entry id equals the last id recorded in `completedRef` performs no
mutation at all (neither of the store nor of the engine state). -/
theorem completion_signal_idempotent (s : AppState) (d : String)
    (now : Int) :
    (handleTimerCompletion (handleTimerCompletion s d now) d now).db =
      (handleTimerCompletion s d now).db ∧
    (∀ e : Entry, s.activeEntry = some e → s.completedRef = some e.id →
      handleTimerCompletion s d now = s) := by
  constructor
  · rcases handleTimerCompletion_outcome s d now with h | h | h
    · simp only [h]
    · rw [handleTimerCompletion_noop (Or.inl (by rw [h]; norm_num))]
    · rw [handleTimerCompletion_noop (Or.inr (Or.inl h))]
  · intro e hact href
    simp only [handleTimerCompletion, hact]
    by_cases hr : s.isRunning = false
    · rw [if_pos hr]
    · rw [if_neg hr]
      by_cases ht : s.timeLeft > 0
      · rw [if_pos ht]
      · rw [if_neg ht, if_pos href]

/-- Concrete state for the C2 witness: the active entry's id has already
been recorded in `completedRef`. -/
def rowC2 : Row :=
  { id := 1, name := "Draft report", duration := 25, date := "2024-03-01",
    completed := true, startedAt := some 0, type := some "pomodoro" }

/-- Concrete engine state for the C2 witness. -/
def sC2 : AppState :=
  { db := ⟨[rowC2], 2⟩, activeEntry := some (mapRowToEntry rowC2),
    timeLeft := 0, isRunning := true, showTimer := true,
    completedRef := some 1, worker := some 0 }

/-- Witness for C2 at a concrete state. -/
theorem completion_signal_idempotent_witness :
    handleTimerCompletion sC2 "2024-03-01" 0 = sC2 :=
  (completion_signal_idempotent sC2 "2024-03-01" 0).2
    (mapRowToEntry rowC2) rfl rfl

/-! ### Claim C6: manual completion never inserts -/

/-- Claim C6: `handleManualComplete` while an entry is running stops the
background worker, marks the active entry complete in the store,
transitions to idle, and leaves the number of stored entries unchanged
(no Rest entry is chained), whatever the entry's kind. -/
theorem manual_complete_spec (s : AppState) (e : Entry)
    (hrun : s.isRunning = true) (hact : s.activeEntry = some e) :
    (handleManualComplete s).worker = none ∧
    (handleManualComplete s).db.rows = s.db.rows.map (completeFn e.id) ∧
    (handleManualComplete s).isRunning = false ∧
    (handleManualComplete s).activeEntry = none ∧
    (handleManualComplete s).db.rows.length = s.db.rows.length := by
  have hm : handleManualComplete s =
      { s with
        worker := none,
        db := completePomodoro s.db e.id,
        isRunning := false,
        activeEntry := none,
        showTimer := false } := by
    simp only [handleManualComplete, hact]
  rw [hm]
  refine ⟨rfl, rfl, rfl, rfl, ?_⟩
  show (completePomodoro s.db e.id).rows.length = s.db.rows.length
  rw [completePomodoro_rows]
  exact List.length_map _ _

/-- Concrete running state for the C6 witness (a rest entry mid-countdown,
showing manual completion does not depend on the kind). -/
def rowC6 : Row :=
  { id := 2, name := "Rest", duration := 5, date := "2024-03-01",
    completed := false, startedAt := some 1000, type := some "rest" }

/-- Concrete engine state for the C6 witness. -/
def sC6 : AppState :=
  { db := ⟨[rowC6], 3⟩, activeEntry := some (mapRowToEntry rowC6),
    timeLeft := 100, isRunning := true, showTimer := true,
    completedRef := none, worker := some 301000 }

/-- Witness for C6 at a concrete state. -/
theorem manual_complete_spec_witness :
    (handleManualComplete sC6).activeEntry = none ∧
    (handleManualComplete sC6).db.rows.length = sC6.db.rows.length :=
  ⟨(manual_complete_spec sC6 (mapRowToEntry rowC6) rfl rfl).2.2.2.1,
   (manual_complete_spec sC6 (mapRowToEntry rowC6) rfl rfl).2.2.2.2⟩

/-! ### Claim C1: deadline completion of a Work entry chains one Rest -/

/-- Claim C1: when a running Work (`'pomodoro'`) entry's countdown has
reached zero and the completion signal is handled (and the `completedRef`
guard has not yet fired for it), exactly one completion is applied: the
rows become the old rows with exactly the rows of that entry's id marked
complete, followed by exactly one new Rest row with duration 5, the
handler's current date, `completed = false`, and `started_at = now`; that
Rest row becomes the ongoing entry and the new active entry. -/
theorem work_completion_chains_rest (s : AppState) (e : Entry) (d : String)
    (now : Int)
    (hrun : s.isRunning = true) (hact : s.activeEntry = some e)
    (htype : e.type = "pomodoro") (htl : ¬s.timeLeft > 0)
    (href : ¬s.completedRef = some e.id)
    (hbound : ∀ r ∈ s.db.rows, r.id < s.db.nextId) :
    (handleTimerCompletion s d now).db.rows =
      s.db.rows.map (completeFn e.id) ++
        [{ id := s.db.nextId, name := "Rest", duration := 5, date := d,
           completed := false, startedAt := some now,
           type := some "rest" }] ∧
    (handleTimerCompletion s d now).activeEntry =
      some (mapRowToEntry
        { id := s.db.nextId, name := "Rest", duration := 5, date := d,
          completed := false, startedAt := some now, type := some "rest" }) ∧
    getOngoingEntry (handleTimerCompletion s d now).db =
      some (mapRowToEntry
        { id := s.db.nextId, name := "Rest", duration := 5, date := d,
          completed := false, startedAt := some now, type := some "rest" }) ∧
    (handleTimerCompletion s d now).db.nextId = s.db.nextId + 1 := by
  have hnr : ¬s.isRunning = false := by rw [hrun]; simp
  have hcomp : handleTimerCompletion s d now =
      { s with
        db := (addRest (completePomodoro s.db e.id) 5 d now).1,
        completedRef := some e.id,
        activeEntry :=
          getOngoingEntry (addRest (completePomodoro s.db e.id) 5 d now).1,
        timeLeft := (5 : ℚ) * 60,
        worker := some ((now : ℚ) + 5 * 60 * 1000) } := by
    simp only [handleTimerCompletion, hact]
    rw [if_neg hnr, if_neg htl, if_neg href, if_pos htype]
  have hrows :
      (addRest (completePomodoro s.db e.id) 5 d now).1.rows =
        s.db.rows.map (completeFn e.id) ++
          [{ id := s.db.nextId, name := "Rest", duration := 5, date := d,
             completed := false, startedAt := some now,
             type := some "rest" }] := rfl
  have hlt :
      ∀ x ∈ s.db.rows.map (completeFn e.id), x.id < s.db.nextId := by
    intro x hx
    rcases List.mem_map.mp hx with ⟨r, hr, hmap⟩
    rw [← hmap, completeFn_id]
    exact hbound r hr
  have hongoing :
      getOngoingEntry (addRest (completePomodoro s.db e.id) 5 d now).1 =
        some (mapRowToEntry
          { id := s.db.nextId, name := "Rest", duration := 5, date := d,
            completed := false, startedAt := some now,
            type := some "rest" }) := by
    have := @getOngoingEntry_append (s.db.rows.map (completeFn e.id))
      { id := s.db.nextId, name := "Rest", duration := 5, date := d,
        completed := false, startedAt := some now, type := some "rest" }
      (s.db.nextId + 1) rfl hlt
    exact this
  rw [hcomp]
  exact ⟨hrows, hongoing, hongoing, rfl⟩

/-- Concrete state for the C1 witness: the spec's scenario, a running
25-minute Work entry whose countdown has just reached zero. -/
def rowC1 : Row :=
  { id := 1, name := "Draft report", duration := 25, date := "2024-03-01",
    completed := false, startedAt := some 0, type := some "pomodoro" }

/-- Concrete engine state for the C1 witness. -/
def sC1 : AppState :=
  { db := ⟨[rowC1], 2⟩, activeEntry := some (mapRowToEntry rowC1),
    timeLeft := 0, isRunning := true, showTimer := true,
    completedRef := none, worker := some 1500000 }

/-- Witness for C1 at the spec's concrete scenario. -/
theorem work_completion_chains_rest_witness :
    (handleTimerCompletion sC1 "2024-03-01" 1500000).db.rows =
      sC1.db.rows.map (completeFn (mapRowToEntry rowC1).id) ++
        [{ id := sC1.db.nextId, name := "Rest", duration := 5,
           date := "2024-03-01", completed := false,
           startedAt := some 1500000, type := some "rest" }] ∧
    getOngoingEntry (handleTimerCompletion sC1 "2024-03-01" 1500000).db =
      some (mapRowToEntry
        { id := sC1.db.nextId, name := "Rest", duration := 5,
          date := "2024-03-01", completed := false,
          startedAt := some 1500000, type := some "rest" }) :=
  ⟨(work_completion_chains_rest sC1 (mapRowToEntry rowC1) "2024-03-01"
      1500000 rfl rfl rfl (by show ¬(0:ℚ) > 0; norm_num) (by decide)
      (by decide)).1,
   (work_completion_chains_rest sC1 (mapRowToEntry rowC1) "2024-03-01"
      1500000 rfl rfl rfl (by show ¬(0:ℚ) > 0; norm_num) (by decide)
      (by decide)).2.2.1⟩

/-! ### Claim C4: validation boundary of `handleStartPomodoro` -/

/-- Claim C4 (amended): `handleStartPomodoro` rejects silently — the whole
engine state unchanged, nothing persisted — exactly when the trimmed label
is empty or longer than 100 characters or the duration lies outside
`[0.01, 60]` (the code's `MIN_DURATION = 0.01`, not `0`); on acceptance it
appends exactly one Work row, transitions to running, and arms the worker
with deadline `now + duration*60*1000` milliseconds. -/
theorem start_validation (s : AppState) (nm : String) (dur : ℚ)
    (date : String) (now : Int) :
    ((jsTrim nm = "" ∨ (jsTrim nm).length > 100 ∨ dur < 1 / 100 ∨
        dur > 60) →
      handleStartPomodoro s nm dur date now = s) ∧
    (¬(jsTrim nm = "" ∨ (jsTrim nm).length > 100 ∨ dur < 1 / 100 ∨
        dur > 60) →
      handleStartPomodoro s nm dur date now ≠ s ∧
      (handleStartPomodoro s nm dur date now).db.rows =
        s.db.rows ++
          [{ id := s.db.nextId, name := jsTrim nm, duration := dur,
             date := date, completed := false, startedAt := some now,
             type := some "pomodoro" }] ∧
      (handleStartPomodoro s nm dur date now).isRunning = true ∧
      (handleStartPomodoro s nm dur date now).worker =
        some ((now : ℚ) + dur * 60 * 1000)) := by
  constructor
  · intro h
    simp only [handleStartPomodoro]
    by_cases h1 : jsTrim nm = "" ∨ (jsTrim nm).length > 100
    · rw [if_pos h1]
    · rw [if_neg h1]
      have h2 : dur < 1 / 100 ∨ dur > 60 := by
        rcases h with h | h | h | h
        · exact absurd (Or.inl h) h1
        · exact absurd (Or.inr h) h1
        · exact Or.inl h
        · exact Or.inr h
      rw [if_pos h2]
  · intro h
    push_neg at h
    obtain ⟨hne, hlen, hlo, hhi⟩ := h
    have h1 : ¬(jsTrim nm = "" ∨ (jsTrim nm).length > 100) := by
      push_neg
      exact ⟨hne, hlen⟩
    have h2 : ¬(dur < 1 / 100 ∨ dur > 60) := by
      push_neg
      exact ⟨hlo, hhi⟩
    have hacc : handleStartPomodoro s nm dur date now =
        { s with
          db := (addPomodoro s.db (jsTrim nm) dur date now).1,
          activeEntry :=
            getOngoingEntry (addPomodoro s.db (jsTrim nm) dur date now).1,
          timeLeft := dur * 60,
          isRunning := true,
          showTimer := true,
          worker := some ((now : ℚ) + dur * 60 * 1000) } := by
      simp only [handleStartPomodoro]
      rw [if_neg h1, if_neg h2]
    refine ⟨?_, ?_, ?_, ?_⟩
    · intro hc
      have := congrArg (fun st => st.db.nextId) hc
      rw [hacc] at this
      have hnx : s.db.nextId + 1 = s.db.nextId := this
      omega
    · rw [hacc]; rfl
    · rw [hacc]
    · rw [hacc]

/-- Counterexample to C4 as stated: the duration `1/200 = 0.005` minutes
lies inside `(0, 60]`, and the label `"A"` is valid, yet the handler
rejects it (returns the state unchanged, persists nothing), because the
code's lower bound is `MIN_DURATION = 0.01`. -/
theorem start_validation_counterexample :
    (0 : ℚ) < 1 / 200 ∧ (1 / 200 : ℚ) ≤ 60 ∧ jsTrim "A" ≠ "" ∧
    (jsTrim "A").length ≤ 100 ∧
    handleStartPomodoro initialState "A" (1 / 200) "2024-03-01" 0 =
      initialState := by
  refine ⟨by norm_num, by norm_num, by decide, by decide, ?_⟩
  exact (start_validation initialState "A" (1 / 200) "2024-03-01" 0).1
    (Or.inr (Or.inr (Or.inl (by norm_num))))

/-- Witness for C4 (amended) on the acceptance side. -/
theorem start_validation_witness :
    (handleStartPomodoro initialState "Draft report" 25 "2024-03-01"
        0).db.rows =
      initialState.db.rows ++
        [{ id := initialState.db.nextId, name := jsTrim "Draft report",
           duration := 25, date := "2024-03-01", completed := false,
           startedAt := some 0, type := some "pomodoro" }] ∧
    (handleStartPomodoro initialState "Draft report" 25 "2024-03-01"
        0).isRunning = true :=
  ⟨((start_validation initialState "Draft report" 25 "2024-03-01" 0).2
      (by rw [not_or, not_or, not_or]
          exact ⟨by decide, by decide, by norm_num, by norm_num⟩)).2.1,
   ((start_validation initialState "Draft report" 25 "2024-03-01" 0).2
      (by rw [not_or, not_or, not_or]
          exact ⟨by decide, by decide, by norm_num, by norm_num⟩)).2.2.1⟩

/-! ### Claim C5: resuming a persisted entry whose deadline has passed -/

/-- Claim C5 (amended): a persisted incomplete ongoing entry whose total
duration is a whole number of seconds (in particular every integer-minute
duration) and whose deadline `startedAt + duration*60*1000` ms is not in
the future at load time is marked complete by `resumeFromPersisted`
without entering the running state and without creating any new row. -/
theorem resume_expired_completes (s : AppState) (o : Entry) (t : Int)
    (T : ℤ) (now : Int)
    (hong : getOngoingEntry s.db = some o)
    (hst : o.startedAt = some t)
    (hwhole : (o.duration * 60 : ℚ) = (T : ℚ))
    (hdl : (t : ℚ) + o.duration * 60 * 1000 ≤ (now : ℚ)) :
    resumeFromPersisted s now = { s with db := completePomodoro s.db o.id }
      ∧ (resumeFromPersisted s now).isRunning = s.isRunning
      ∧ (resumeFromPersisted s now).activeEntry = s.activeEntry
      ∧ (resumeFromPersisted s now).db.rows.length = s.db.rows.length := by
  have hrem : calculateRemainingTime o.duration t now = 0 := by
    unfold calculateRemainingTime
    have hx : (T : ℚ) ≤ ((now : ℚ) - (t : ℚ)) / 1000 := by
      rw [le_div_iff₀ (by norm_num : (0:ℚ) < 1000)]
      rw [← hwhole]
      linarith
    have hfl : T ≤ ⌊((now : ℚ) - (t : ℚ)) / 1000⌋ := Int.le_floor.mpr hx
    have hcast : (T : ℚ) ≤ (⌊((now : ℚ) - (t : ℚ)) / 1000⌋ : ℚ) := by
      exact_mod_cast hfl
    rw [hwhole]
    exact max_eq_left (by linarith)
  have hmain : resumeFromPersisted s now =
      { s with db := completePomodoro s.db o.id } := by
    simp only [resumeFromPersisted, hong, hst]
    rw [hrem, if_neg (by norm_num)]
  refine ⟨hmain, ?_, ?_, ?_⟩
  · rw [hmain]
  · rw [hmain]
  · rw [hmain]
    show (completePomodoro s.db o.id).rows.length = s.db.rows.length
    rw [completePomodoro_rows]
    exact List.length_map _ _

/-- The store of the C5 counterexample: one incomplete entry of duration
`0.01` minutes (the code's own `MIN_DURATION`), started at epoch 0. -/
def dbC5 : Db :=
  ⟨[{ id := 1, name := "Blink", duration := 1 / 100, date := "2024-03-01",
      completed := false, startedAt := some 0,
      type := some "pomodoro" }], 2⟩

/-- The idle engine state holding `dbC5` at load time. -/
def sC5 : AppState :=
  { db := dbC5, activeEntry := none, timeLeft := 0, isRunning := false,
    showTimer := false, completedRef := none, worker := none }

/-- Counterexample to C5 as stated: at `now = 600` ms the deadline
`0 + 0.01*60*1000 = 600` ms is not in the future, yet
`resumeFromPersisted` re-enters the running state and leaves the entry
incomplete, because `floor((600-0)/1000) = 0` seconds have elapsed while
`0.6` seconds were required. -/
theorem resume_expired_counterexample :
    ((0 : ℚ) + (1 / 100) * 60 * 1000 ≤ (600 : ℚ)) ∧
    (resumeFromPersisted sC5 600).isRunning = true ∧
    countIncomplete (resumeFromPersisted sC5 600).db = 1 := by
  have hong : getOngoingEntry sC5.db =
      some (mapRowToEntry
        { id := 1, name := "Blink", duration := 1 / 100,
          date := "2024-03-01", completed := false, startedAt := some 0,
          type := some "pomodoro" }) := rfl
  have hpos : calculateRemainingTime (1 / 100) (0 : ℤ) (600 : ℤ) > 0 := by
    norm_num [calculateRemainingTime, max_def]
  refine ⟨by norm_num, ?_, ?_⟩
  · simp only [resumeFromPersisted, hong, mapRowToEntry]
    rw [if_pos hpos]
  · simp only [resumeFromPersisted, hong, mapRowToEntry]
    rw [if_pos hpos]
    rfl

/-- The row of the C5 witness: an integer-minute (25) entry. -/
def rowC5' : Row :=
  { id := 1, name := "Draft report", duration := 25, date := "2024-03-01",
    completed := false, startedAt := some 0, type := some "pomodoro" }

/-- The idle engine state holding `rowC5'` at load time. -/
def sC5' : AppState :=
  { db := ⟨[rowC5'], 2⟩, activeEntry := none, timeLeft := 0,
    isRunning := false, showTimer := false, completedRef := none,
    worker := none }

/-- Witness for C5 (amended): a 25-minute entry started at epoch 0,
resumed at `now = 1,500,000` ms (exactly the deadline), is completed
without entering the running state. -/
theorem resume_expired_completes_witness :
    resumeFromPersisted sC5' 1500000 =
      { sC5' with db := completePomodoro sC5'.db 1 } ∧
    (resumeFromPersisted sC5' 1500000).isRunning = sC5'.isRunning :=
  ⟨(resume_expired_completes sC5' (mapRowToEntry rowC5') 0 1500 1500000
      rfl rfl (by norm_num [rowC5', mapRowToEntry, typeOrDefault])
      (by norm_num [rowC5', mapRowToEntry, typeOrDefault])).1,
   (resume_expired_completes sC5' (mapRowToEntry rowC5') 0 1500 1500000
      rfl rfl (by norm_num [rowC5', mapRowToEntry, typeOrDefault])
      (by norm_num [rowC5', mapRowToEntry, typeOrDefault])).2.1⟩

/-- Characterization of a successful `getOngoingEntry`: the returned
entry maps an incomplete, started row of maximal id among such rows. -/
theorem getOngoingEntry_some_spec {db : Db} {e : Entry}
    (he : getOngoingEntry db = some e) :
    ∃ r ∈ db.rows, mapRowToEntry r = e ∧ r.completed = false ∧
      r.startedAt.isSome = true ∧
      ∀ x ∈ db.rows, x.completed = false → x.startedAt.isSome = true →
        x.id ≤ r.id := by
  unfold getOngoingEntry at he
  cases hp : pickMaxId (db.rows.filter qOngoing) with
  | none => rw [hp] at he; exact absurd he (by simp)
  | some m =>
    rw [hp] at he
    have hme : mapRowToEntry m = e := by
      have : some (mapRowToEntry m) = some e := he
      exact Option.some.inj this
    have hmem := pickMaxId_mem hp
    have hmrow := List.mem_of_mem_filter hmem
    have hq := List.of_mem_filter hmem
    simp only [qOngoing, Bool.and_eq_true, Bool.not_eq_true'] at hq
    refine ⟨m, hmrow, hme, hq.1, hq.2, ?_⟩
    intro x hx hxc hxs
    exact pickMaxId_ge hp x
      (List.mem_filter.mpr ⟨hx, by simp [qOngoing, hxc, hxs]⟩)

/-! ### Claim C10: `getOngoingEntry` ignores rows with NULL `started_at` -/

/-- Claim C10: `getOngoingEntry` returns nothing exactly when no row is
both incomplete and has a non-NULL `started_at`; when it returns an entry,
that entry comes from an incomplete row with a non-NULL `started_at`
whose id is maximal among all such rows — so an incomplete row with NULL
`started_at` is never returned, even at the highest id. -/
theorem getOngoingEntry_spec (db : Db) :
    (getOngoingEntry db = none ↔
      ∀ r ∈ db.rows, r.completed = true ∨ r.startedAt = none) ∧
    (∀ e : Entry, getOngoingEntry db = some e →
      ∃ r ∈ db.rows, mapRowToEntry r = e ∧ r.completed = false ∧
        r.startedAt.isSome = true ∧
        ∀ x ∈ db.rows, x.completed = false → x.startedAt.isSome = true →
          x.id ≤ r.id) := by
  constructor
  · rw [getOngoingEntry_eq_none, List.filter_eq_nil_iff]
    constructor
    · intro h r hr
      have hq := h r hr
      simp only [qOngoing, Bool.and_eq_true, Bool.not_eq_true'] at hq
      by_cases hc : r.completed = true
      · exact Or.inl hc
      · right
        rcases hst : r.startedAt with _ | t
        · rfl
        · exfalso
          apply hq
          constructor
          · cases hcv : r.completed
            · rfl
            · exact absurd hcv hc
          · rw [hst]; rfl
    · intro h r hr
      rcases h r hr with hc | hs
      · simp [qOngoing, hc]
      · simp [qOngoing, hs]
  · intro e he
    exact getOngoingEntry_some_spec he

/-- The store of the C10 witness: the highest-id incomplete row has NULL
`started_at` and must be skipped in favour of the lower-id started row. -/
def dbC10 : Db :=
  ⟨[{ id := 1, name := "Started", duration := 25, date := "2024-03-01",
      completed := false, startedAt := some 5,
      type := some "pomodoro" },
    { id := 2, name := "Unstarted", duration := 25, date := "2024-03-01",
      completed := false, startedAt := none,
      type := some "pomodoro" }], 3⟩

/-- Witness for C10 at a concrete store. -/
theorem getOngoingEntry_spec_witness :
    ∃ r ∈ dbC10.rows,
      mapRowToEntry r =
          mapRowToEntry
            { id := 1, name := "Started", duration := 25,
              date := "2024-03-01", completed := false,
              startedAt := some 5, type := some "pomodoro" } ∧
        r.completed = false ∧ r.startedAt.isSome = true ∧
        ∀ x ∈ dbC10.rows, x.completed = false → x.startedAt.isSome = true →
          x.id ≤ r.id :=
  (getOngoingEntry_spec dbC10).2
    (mapRowToEntry
      { id := 1, name := "Started", duration := 25, date := "2024-03-01",
        completed := false, startedAt := some 5,
        type := some "pomodoro" }) rfl

/-! ### Claim C7: monthly counts only count completed Work entries -/

theorem lookupCount_map_self (keys : List String) (f : String → Nat)
    (d : String) :
    lookupCount (keys.map fun x => (x, f x)) d =
      if d ∈ keys then f d else 0 := by
  induction keys with
  | nil => simp [lookupCount]
  | cons k ks ih =>
    simp only [List.map_cons, lookupCount]
    by_cases hk : k = d
    · subst hk
      simp
    · rw [if_neg hk, ih]
      by_cases hd : d ∈ ks
      · rw [if_pos hd, if_pos (List.mem_cons_of_mem _ hd)]
      · rw [if_neg hd, if_neg (by
          intro hc
          rcases List.mem_cons.mp hc with h | h
          · exact hk h.symm
          · exact hd h)]

/-- Claim C7: for a date string belonging to the queried month, the
monthly mapping (read back with the `|| 0` default) equals the number of
stored entries on that date whose kind (after the `'pomodoro'` default)
is Work and which are completed — Rest entries and incomplete entries are
never counted.  The store hypothesis (every row's `type` column is
`'pomodoro'` or `'rest'`) holds for every store this code writes. -/
theorem monthly_counts_spec (db : Db) (year month : Nat) (d : String)
    (hty : ∀ r ∈ db.rows,
      r.type = some "pomodoro" ∨ r.type = some "rest")
    (hd : jsStartsWith d (monthPattern year month) = true) :
    lookupCount (getPomodorosForMonth db year month) d =
      db.rows.countP fun r =>
        decide (r.date = d) &&
        decide (typeOrDefault r.type = "pomodoro") && r.completed := by
  unfold getPomodorosForMonth
  rw [lookupCount_map_self]
  have hpt : ∀ r ∈ db.rows,
      ((decide (r.date = d) &&
          decide (typeOrDefault r.type = "pomodoro") && r.completed)
        = (decide (r.date = d) && monthlyMatch (monthPattern year month)
            r)) := by
    intro r hr
    by_cases hdt : r.date = d
    · subst hdt
      rcases hty r hr with hp | hp <;>
        simp [monthlyMatch, hp, typeOrDefault, hd]
    · simp [hdt]
  by_cases hmem :
      d ∈ (db.rows.filter (monthlyMatch (monthPattern year month))).map
        (fun r => r.date)
  · rw [if_pos (List.mem_dedup.mpr hmem)]
    rw [List.count_eq_countP, List.countP_map, List.countP_filter]
    refine (List.countP_congr ?_).symm
    intro r hr
    rw [hpt r hr]
    constructor
    · intro h
      have hb := of_decide_eq_true (by simpa using h)
      simp [Function.comp, hb.1, hb.2]
    · intro h
      have hb := of_decide_eq_true (by simpa using h)
      simp [hb.1, hb.2]
  · rw [if_neg fun hc => hmem (List.mem_dedup.mp hc)]
    symm
    rw [List.countP_eq_zero]
    intro r hr hcontra
    apply hmem
    have hcb : (decide (r.date = d) && monthlyMatch
        (monthPattern year month) r) = true := by
      rw [← hpt r hr]
      simpa using hcontra
    simp only [Bool.and_eq_true, decide_eq_true_eq] at hcb
    refine List.mem_map.mpr ⟨r, List.mem_filter.mpr ⟨hr, hcb.2⟩, hcb.1⟩

/-- The store of the C7 witness: on `2024-03-05`, three completed Work
entries, two completed Rest entries, one incomplete Work entry. -/
def dbC7 : Db :=
  ⟨[{ id := 1, name := "W1", duration := 25, date := "2024-03-05",
      completed := true, startedAt := some 0, type := some "pomodoro" },
    { id := 2, name := "Rest", duration := 5, date := "2024-03-05",
      completed := true, startedAt := some 1, type := some "rest" },
    { id := 3, name := "W2", duration := 25, date := "2024-03-05",
      completed := true, startedAt := some 2, type := some "pomodoro" },
    { id := 4, name := "Rest", duration := 5, date := "2024-03-05",
      completed := true, startedAt := some 3, type := some "rest" },
    { id := 5, name := "W3", duration := 25, date := "2024-03-05",
      completed := true, startedAt := some 4, type := some "pomodoro" },
    { id := 6, name := "W4", duration := 25, date := "2024-03-05",
      completed := false, startedAt := some 5,
      type := some "pomodoro" }], 7⟩

/-- Witness for C7: the day with 3 completed Work and 2 completed Rest
entries reports count 3. -/
theorem monthly_counts_spec_witness :
    lookupCount (getPomodorosForMonth dbC7 2024 3) "2024-03-05" =
      dbC7.rows.countP (fun r =>
        decide (r.date = "2024-03-05") &&
        decide (typeOrDefault r.type = "pomodoro") && r.completed) ∧
    dbC7.rows.countP (fun r =>
        decide (r.date = "2024-03-05") &&
        decide (typeOrDefault r.type = "pomodoro") && r.completed) = 3 :=
  ⟨monthly_counts_spec dbC7 2024 3 "2024-03-05" (by decide) (by decide),
   by decide⟩

/-! ### Claim C8: snapshot round-trip preserves `queryByDate` -/

theorem decodeRow_encodeRow (r : Row) : decodeRow (encodeRow r) = some r := by
  rcases r with ⟨i, n, q, dt, c, st, ty⟩
  cases c <;> cases st <;> cases ty <;> rfl

theorem decodeTable_encodeRow (l : List Row) :
    decodeTable decodeRow (l.map encodeRow) = some l := by
  induction l with
  | nil => rfl
  | cons r rs ih =>
    simp [decodeTable, decodeRow_encodeRow, ih]

/-- Deserializing a saved image reproduces the database exactly. -/
theorem initDb_saveDb (db : Db) : initDb (saveDb db) = some db := by
  unfold initDb saveDb
  rw [if_pos rfl]
  rw [decodeTable_encodeRow]
  rfl

instance : IsTotal Row rowLe := by
  constructor
  intro a b
  unfold rowLe
  cases a.startedAt with
  | none => left; rfl
  | some x =>
    cases b.startedAt with
    | none => right; rfl
    | some y =>
      rcases Int.le_total x y with h | h
      · left; simpa [startedLeB] using h
      · right; simpa [startedLeB] using h

instance : IsTrans Row rowLe := by
  constructor
  intro a b c hab hbc
  unfold rowLe at hab hbc ⊢
  cases ha : a.startedAt with
  | none => rfl
  | some x =>
    cases hb : b.startedAt with
    | none => rw [ha, hb] at hab; exact absurd hab (by simp [startedLeB])
    | some y =>
      cases hc : c.startedAt with
      | none => rw [hb, hc] at hbc; exact absurd hbc (by simp [startedLeB])
      | some z =>
        rw [ha, hb] at hab
        rw [hb, hc] at hbc
        simp only [startedLeB, decide_eq_true_eq] at hab hbc
        simpa [startedLeB] using Int.le_trans hab hbc

/-- Claim C8: exporting the store, discarding it, and re-importing the
snapshot yields a store on which `getPomodorosForDate` returns the
identical sequence for every date, and that sequence is ascending by
`startedAt`. -/
theorem snapshot_roundtrip (db : Db) (d : String) :
    (initDb (saveDb db)).map (fun db2 => getPomodorosForDate db2 d) =
      some (getPomodorosForDate db d) ∧
    (getPomodorosForDate db d).Pairwise
      (fun a b => startedLeB a.startedAt b.startedAt = true) := by
  constructor
  · rw [initDb_saveDb]
    rfl
  · unfold getPomodorosForDate
    have hs : ((db.rows.filter fun r =>
        decide (r.date = d)).insertionSort rowLe).Pairwise rowLe :=
      List.sorted_insertionSort rowLe _
    exact List.Pairwise.map mapRowToEntry (fun a b h => h) hs

/-! ### Claim C9: the additive `type`-column migration -/

theorem decodeRowLegacy_encodeRowLegacy (r : Row) :
    decodeRowLegacy (encodeRowLegacy r) = some { r with type := none } := by
  rcases r with ⟨i, n, q, dt, c, st, ty⟩
  cases c <;> cases st <;> rfl

theorem decodeTable_encodeRowLegacy (l : List Row) :
    decodeTable decodeRowLegacy (l.map encodeRowLegacy) =
      some (l.map fun r => { r with type := none }) := by
  induction l with
  | nil => rfl
  | cons r rs ih =>
    simp [decodeTable, decodeRowLegacy_encodeRowLegacy, ih]

/-- Claim C9 (amended): loading a legacy snapshot without the `type`
column succeeds, adds the column filled with the `'pomodoro'` default,
and preserves every other field of every row; loading a snapshot that
already has the column leaves the store exactly as saved (the migration
runs exactly when the column is absent); and a NULL or empty `type` is
reported as Work (`'pomodoro'`) by `mapRowToEntry`, the row mapper used
by the per-date and ongoing queries.  (The monthly count query compares
the raw column instead — see the counterexample.) -/
theorem migration_spec :
    (∀ (l : List Row) (n : Nat),
      initDb ⟨l.map encodeRowLegacy, n, false⟩ =
        some ⟨l.map fun r => { r with type := some "pomodoro" }, n⟩) ∧
    (∀ (l : List Row) (n : Nat),
      initDb ⟨l.map encodeRow, n, true⟩ = some ⟨l, n⟩) ∧
    (∀ t : Option String,
      t = none ∨ t = some "" → typeOrDefault t = "pomodoro") := by
  refine ⟨?_, ?_, ?_⟩
  · intro l n
    unfold initDb
    rw [if_neg (by simp)]
    rw [decodeTable_encodeRowLegacy]
    simp only [Option.map_some']
    unfold runMigrations
    rw [List.map_map]
    rfl
  · intro l n
    unfold initDb
    rw [if_pos rfl, decodeTable_encodeRow]
    rfl
  · intro t h
    rcases h with h | h <;> subst h <;> rfl

/-- Witness for C9 at concrete inputs: a one-row legacy snapshot is
migrated with the `'pomodoro'` default, and a NULL kind defaults to
Work. -/
theorem migration_spec_witness :
    initDb ⟨[{ id := 1, name := "Legacy", duration := 25,
               date := "2024-03-05", completed := true,
               startedAt := some 0,
               type := none : Row }].map encodeRowLegacy, 2, false⟩ =
      some ⟨[{ id := 1, name := "Legacy", duration := 25,
               date := "2024-03-05", completed := true,
               startedAt := some 0, type := some "pomodoro" }], 2⟩ ∧
    typeOrDefault none = "pomodoro" :=
  ⟨migration_spec.1
      [{ id := 1, name := "Legacy", duration := 25, date := "2024-03-05",
         completed := true, startedAt := some 0, type := none }] 2,
   migration_spec.2.2 none (Or.inl rfl)⟩

/-- The store of the C9 counterexample: the schema has the `type` column
but the single completed row's value is NULL (as an external writer, or a
partially-written snapshot, could produce). -/
def dbC9 : Db :=
  ⟨[{ id := 1, name := "Legacy", duration := 25, date := "2024-03-05",
      completed := true, startedAt := some 0, type := none }], 2⟩

/-- Counterexample to C9 as stated ("reported as Work by every query"):
the per-date query reports the NULL-kind completed row as Work, yet the
monthly count query — which compares the raw column with `'pomodoro'` —
does not count it: the day reports 0 instead of 1. -/
theorem migration_counterexample :
    (getPomodorosForDate dbC9 "2024-03-05").map (fun e => e.type) =
      ["pomodoro"] ∧
    (getPomodorosForDate dbC9 "2024-03-05").map (fun e => e.completed) =
      [true] ∧
    lookupCount (getPomodorosForMonth dbC9 2024 3) "2024-03-05" = 0 := by
  refine ⟨rfl, rfl, rfl⟩

/-! ### Claim C3: at most one incomplete entry

The invariant below is maintained under the discipline the specification
assumes (`start` only issued while nothing is ongoing); the counterexample
shows the code itself does not enforce that discipline. -/

/-- Structural well-formedness the store operations maintain: ids strictly
increase along the table, stay below the autoincrement counter, and every
row this code inserts has a start timestamp. -/
def DbWF (db : Db) : Prop :=
  db.rows.Pairwise (fun a b => a.id < b.id) ∧
  (∀ r ∈ db.rows, r.id < db.nextId) ∧
  (∀ r ∈ db.rows, r.startedAt.isSome = true)

/-- Engine invariant: the store is well-formed and every incomplete row's
id is the active entry's id. -/
def Inv (s : AppState) : Prop :=
  DbWF s.db ∧
  ∀ r ∈ s.db.rows, r.completed = false →
    ∃ e, s.activeEntry = some e ∧ r.id = e.id

theorem dbWF_complete {db : Db} (i : Nat) (h : DbWF db) :
    DbWF (completePomodoro db i) := by
  obtain ⟨hpw, hb, hs⟩ := h
  refine ⟨?_, ?_, ?_⟩
  · rw [completePomodoro_rows]
    exact List.Pairwise.map _ (fun a b hab => by
      rwa [completeFn_id, completeFn_id]) hpw
  · intro r hr
    rw [completePomodoro_rows] at hr
    rcases List.mem_map.mp hr with ⟨x, hx, hmap⟩
    rw [← hmap, completeFn_id, completePomodoro_nextId]
    exact hb x hx
  · intro r hr
    rw [completePomodoro_rows] at hr
    rcases List.mem_map.mp hr with ⟨x, hx, hmap⟩
    rw [← hmap, completeFn_startedAt]
    exact hs x hx

theorem dbWF_append {db : Db} {w : Row} (hw : w.id = db.nextId)
    (hws : w.startedAt.isSome = true) (h : DbWF db) :
    DbWF ⟨db.rows ++ [w], db.nextId + 1⟩ := by
  obtain ⟨hpw, hb, hs⟩ := h
  refine ⟨?_, ?_, ?_⟩
  · show List.Pairwise (fun a b => a.id < b.id) (db.rows ++ [w])
    rw [List.pairwise_append]
    refine ⟨hpw, List.pairwise_singleton _ _, ?_⟩
    intro a ha b hb'
    rw [List.mem_singleton.mp hb', hw]
    exact hb a ha
  · intro r hr
    rcases List.mem_append.mp hr with hm | hm
    · exact Nat.lt_trans (hb r hm) (Nat.lt_succ_self _)
    · rw [List.mem_singleton.mp hm, hw]
      exact Nat.lt_succ_self _
  · intro r hr
    rcases List.mem_append.mp hr with hm | hm
    · exact hs r hm
    · rw [List.mem_singleton.mp hm]
      exact hws

theorem dbWF_insert {db : Db} (name : String) (dur : ℚ) (date ty : String)
    (now : Int) (h : DbWF db) :
    DbWF (insertEntry db name dur date ty now).1 :=
  dbWF_append rfl rfl h

/-- After completing the active entry's id, every row whose id the engine
invariant forced to equal it is complete. -/
theorem no_incomplete_after_complete {s : AppState} {e : Entry}
    (hact : s.activeEntry = some e)
    (hclause : ∀ r ∈ s.db.rows, r.completed = false →
      ∃ a, s.activeEntry = some a ∧ r.id = a.id) :
    ∀ r' ∈ s.db.rows.map (completeFn e.id), r'.completed = true := by
  intro r' hr'
  rcases List.mem_map.mp hr' with ⟨r, hr, hmap⟩
  unfold completeFn at hmap
  by_cases hid : r.id = e.id
  · rw [if_pos hid] at hmap
    rw [← hmap]
  · rw [if_neg hid] at hmap
    subst hmap
    cases hc : r.completed
    · exfalso
      rcases hclause r hr hc with ⟨a, ha, hida⟩
      rw [hact] at ha
      cases Option.some.inj ha
      exact hid hida
    · rfl

theorem inv_initial : Inv initialState := by
  refine ⟨⟨List.Pairwise.nil, ?_, ?_⟩, ?_⟩ <;> intro r hr <;>
    exact absurd hr (List.not_mem_nil r)

theorem inv_hide {s : AppState} (h : Inv s) : Inv (handleHideTimer s) := h

theorem inv_start {s : AppState} (nm : String) (dur : ℚ) (d : String)
    (now : Int) (h : Inv s) (hidle : getOngoingEntry s.db = none) :
    Inv (handleStartPomodoro s nm dur d now) := by
  simp only [handleStartPomodoro]
  by_cases h1 : jsTrim nm = "" ∨ (jsTrim nm).length > 100
  · rw [if_pos h1]; exact h
  · rw [if_neg h1]
    by_cases h2 : dur < 1 / 100 ∨ dur > 60
    · rw [if_pos h2]; exact h
    · rw [if_neg h2]
      have hall : ∀ r ∈ s.db.rows, r.completed = true :=
        (getOngoingEntry_none_iff_all_completed h.1.2.2).mp hidle
      have hWF := dbWF_insert (jsTrim nm) dur d "pomodoro" now h.1
      refine ⟨hWF, ?_⟩
      intro r hr hrc
      rcases List.mem_append.mp hr with hm | hm
      · exact absurd (hall r hm) (by rw [hrc]; simp)
      · rw [List.mem_singleton.mp hm]
        refine ⟨mapRowToEntry
          { id := s.db.nextId, name := jsTrim nm, duration := dur,
            date := d, completed := false, startedAt := some now,
            type := some "pomodoro" }, ?_, rfl⟩
        show getOngoingEntry (addPomodoro s.db (jsTrim nm) dur d now).1 =
          _
        exact getOngoingEntry_append rfl h.1.2.1

theorem inv_signal {s : AppState} (d : String) (now : Int) (h : Inv s) :
    Inv (handleTimerCompletion s d now) := by
  cases hact : s.activeEntry with
  | none => simp only [handleTimerCompletion, hact]; exact h
  | some e =>
    simp only [handleTimerCompletion, hact]
    by_cases hr : s.isRunning = false
    · rw [if_pos hr]; exact h
    · rw [if_neg hr]
      by_cases ht : s.timeLeft > 0
      · rw [if_pos ht]; exact h
      · rw [if_neg ht]
        by_cases hg : s.completedRef = some e.id
        · rw [if_pos hg]; exact h
        · rw [if_neg hg]
          have hdone := no_incomplete_after_complete hact h.2
          by_cases hp : e.type = "pomodoro"
          · rw [if_pos hp]
            have hWF := dbWF_insert "Rest" 5 d "rest" now
              (dbWF_complete e.id h.1)
            refine ⟨hWF, ?_⟩
            intro r hr' hrc
            rcases List.mem_append.mp hr' with hm | hm
            · exact absurd (hdone r hm) (by rw [hrc]; simp)
            · rw [List.mem_singleton.mp hm]
              refine ⟨mapRowToEntry
                { id := (completePomodoro s.db e.id).nextId,
                  name := "Rest", duration := 5, date := d,
                  completed := false, startedAt := some now,
                  type := some "rest" }, ?_, rfl⟩
              show getOngoingEntry
                (addRest (completePomodoro s.db e.id) 5 d now).1 = _
              exact getOngoingEntry_append rfl (dbWF_complete e.id h.1).2.1
          · rw [if_neg hp]
            refine ⟨dbWF_complete e.id h.1, ?_⟩
            intro r hr' hrc
            exact absurd (hdone r hr') (by rw [hrc]; simp)

theorem inv_manual {s : AppState} (h : Inv s) :
    Inv (handleManualComplete s) := by
  cases hact : s.activeEntry with
  | none => simp only [handleManualComplete, hact]; exact h
  | some e =>
    simp only [handleManualComplete, hact]
    refine ⟨dbWF_complete e.id h.1, ?_⟩
    intro r hr' hrc
    exact absurd (no_incomplete_after_complete hact h.2 r hr')
      (by rw [hrc]; simp)

/-- Setting the active entry to the store's ongoing entry (done when
resuming) preserves the invariant's tracking clause. -/
theorem inv_clause_set_ongoing {s : AppState} {o : Entry}
    (h : Inv s) (hong : getOngoingEntry s.db = some o) :
    ∀ r ∈ s.db.rows, r.completed = false →
      ∃ a, (some o : Option Entry) = some a ∧ r.id = a.id := by
  intro r hr hrc
  rcases getOngoingEntry_some_spec hong with ⟨m, hm, hme, hmc, _, _⟩
  rcases h.2 r hr hrc with ⟨a, ha, hida⟩
  rcases h.2 m hm hmc with ⟨a', ha', hida'⟩
  rw [ha] at ha'
  cases Option.some.inj ha'
  refine ⟨o, rfl, ?_⟩
  rw [hida, ← hida', ← hme]
  rfl

theorem inv_click {s : AppState} (e : Entry) (now : Int) (h : Inv s) :
    Inv (handleEntryClick s e now) := by
  cases hcb : e.completed with
  | true =>
    simp only [handleEntryClick, hcb]
    simpa using h
  | false =>
    cases hst : e.startedAt with
    | none =>
      simp only [handleEntryClick, hcb, hst]
      simpa using h
    | some t =>
      simp only [handleEntryClick, hcb, hst, Bool.false_eq_true,
        if_false]
      by_cases ht0 : t = 0
      · rw [if_pos ht0]; exact h
      · rw [if_neg ht0]
        by_cases hrem : calculateRemainingTime e.duration t now > 0
        · rw [if_pos hrem]
          cases hong : getOngoingEntry s.db with
          | none => exact h
          | some o =>
            simp only [hong]
            exact ⟨h.1, @inv_clause_set_ongoing s o h hong⟩
        · rw [if_neg hrem]
          refine ⟨dbWF_complete e.id h.1, ?_⟩
          intro r hr' hrc
          rcases mem_completePomodoro_incomplete hr' hrc with ⟨hm, _⟩
          exact h.2 r hm hrc

theorem inv_resume {s : AppState} (now : Int) (h : Inv s) :
    Inv (resumeFromPersisted s now) := by
  cases hong : getOngoingEntry s.db with
  | none => simp only [resumeFromPersisted, hong]; exact h
  | some o =>
    cases hst : o.startedAt with
    | none => simp only [resumeFromPersisted, hong, hst]; exact h
    | some t =>
      simp only [resumeFromPersisted, hong, hst]
      by_cases hrem : calculateRemainingTime o.duration t now > 0
      · rw [if_pos hrem]
        exact ⟨h.1, @inv_clause_set_ongoing s o h hong⟩
      · rw [if_neg hrem]
        refine ⟨dbWF_complete o.id h.1, ?_⟩
        intro r hr' hrc
        rcases mem_completePomodoro_incomplete hr' hrc with ⟨hm, _⟩
        exact h.2 r hm hrc

/-- The countdown-only transitions (worker completion message, interval
tick, visibility reconciliation) change neither the store nor the active
entry, so they preserve the invariant unchanged. -/
theorem inv_timeLeft {s : AppState} (x : ℚ) (h : Inv s) :
    Inv { s with timeLeft := x } := h

theorem inv_reach {s : AppState} (h : ReachIdleStart s) : Inv s := by
  induction h with
  | init => exact inv_initial
  | start s nm dur d now _ hidle ih => exact inv_start nm dur d now ih hidle
  | signal s d now _ ih => exact inv_signal d now ih
  | manual s _ ih => exact inv_manual ih
  | click s e d now _ _ ih => exact inv_click e now ih
  | resume s now _ ih => exact inv_resume now ih
  | hide s _ ih => exact inv_hide ih
  | workerComplete s et _ _ ih => exact inv_timeLeft 0 ih
  | tick s e _ _ _ ih => exact inv_timeLeft (s.timeLeft - 1) ih
  | reconcile s e t now _ _ _ _ ih =>
      exact inv_timeLeft (calculateRemainingTime e.duration t now) ih

/-- Claim C3 (amended): in every state reachable when `start` is only
issued while the store has no ongoing entry — the construction order the
specification assumes — the store holds at most one incomplete entry.
(The code itself does not enforce that discipline: see the
counterexample.) -/
theorem at_most_one_incomplete (s : AppState) (h : ReachIdleStart s) :
    countIncomplete s.db ≤ 1 := by
  have hInv := inv_reach h
  obtain ⟨⟨hpw, _, _⟩, hclause⟩ := hInv
  cases hact : s.activeEntry with
  | none =>
    unfold countIncomplete
    have hz : (s.db.rows.countP fun r => !r.completed) = 0 := by
      rw [List.countP_eq_zero]
      intro r hr
      simp only [Bool.not_eq_true']
      by_contra hrc
      rcases hclause r hr (by simpa using hrc) with ⟨a, ha, _⟩
      rw [hact] at ha
      exact absurd ha (by simp)
    omega
  | some e =>
    exact countP_le_one_of_shared_id hpw fun r hr hrc => by
      rcases hclause r hr hrc with ⟨a, ha, hida⟩
      rw [hact] at ha
      cases Option.some.inj ha
      exact hida

/-- The Work row created by the C3 witness run. -/
def rowC3w : Row :=
  { id := 1, name := "Draft report", duration := 25, date := "2024-03-01",
    completed := false, startedAt := some 0, type := some "pomodoro" }

/-- The state after `start("Draft report", 25, "2024-03-01")` at `now = 0`
from a fresh load. -/
def sC3w1 : AppState :=
  { db := ⟨[rowC3w], 2⟩, activeEntry := some (mapRowToEntry rowC3w),
    timeLeft := 25 * 60, isRunning := true, showTimer := true,
    completedRef := none, worker := some (((0 : ℤ) : ℚ) + 25 * 60 * 1000) }

/-- The state after the worker's completion message zeroes the countdown. -/
def sC3w2 : AppState := { sC3w1 with timeLeft := 0 }

/-- The state after the completion effect then fires, chaining the Rest. -/
def sC3w3 : AppState := handleTimerCompletion sC3w2 "2024-03-01" 1500000

theorem startC3w_eq :
    handleStartPomodoro initialState "Draft report" 25 "2024-03-01" 0 =
      sC3w1 := by
  unfold handleStartPomodoro
  rw [if_neg (by decide :
    ¬(jsTrim "Draft report" = "" ∨ (jsTrim "Draft report").length > 100))]
  rw [if_neg (by norm_num : ¬((25 : ℚ) < 1 / 100 ∨ (25 : ℚ) > 60))]
  rfl

/-- Witness for C3 (amended) at a state reached through a full
start → worker-completion → chained-Rest run, so the deadline-completion
branch — the transition that both completes a row and inserts a new
incomplete one — has actually fired: the store then holds two rows and
still at most one incomplete entry. -/
theorem at_most_one_incomplete_witness :
    countIncomplete sC3w3.db ≤ 1 ∧ sC3w3.db.rows.length = 2 := by
  have h1 : ReachIdleStart sC3w1 := by
    rw [← startC3w_eq]
    exact ReachIdleStart.start initialState "Draft report" 25 "2024-03-01"
      0 ReachIdleStart.init rfl
  have h2 : ReachIdleStart sC3w2 :=
    ReachIdleStart.workerComplete sC3w1 (((0 : ℤ) : ℚ) + 25 * 60 * 1000)
      h1 rfl
  have h3 : ReachIdleStart sC3w3 :=
    ReachIdleStart.signal sC3w2 "2024-03-01" 1500000 h2
  refine ⟨at_most_one_incomplete sC3w3 h3, ?_⟩
  have hact : sC3w2.activeEntry = some (mapRowToEntry rowC3w) := rfl
  have hnr : ¬sC3w2.isRunning = false := by
    rw [show sC3w2.isRunning = true from rfl]
    simp
  have htl : ¬sC3w2.timeLeft > 0 := by
    rw [show sC3w2.timeLeft = (0 : ℚ) from rfl]
    norm_num
  have href : ¬sC3w2.completedRef = some (mapRowToEntry rowC3w).id := by
    rw [show sC3w2.completedRef = (none : Option Nat) from rfl]
    simp
  have hc : sC3w3 =
      { sC3w2 with
        db := (addRest
          (completePomodoro sC3w2.db (mapRowToEntry rowC3w).id)
          5 "2024-03-01" 1500000).1,
        completedRef := some (mapRowToEntry rowC3w).id,
        activeEntry := getOngoingEntry (addRest
          (completePomodoro sC3w2.db (mapRowToEntry rowC3w).id)
          5 "2024-03-01" 1500000).1,
        timeLeft := (5 : ℚ) * 60,
        worker := some (((1500000 : ℤ) : ℚ) + 5 * 60 * 1000) } := by
    have htype : (mapRowToEntry rowC3w).type = "pomodoro" := by rfl
    show handleTimerCompletion sC3w2 "2024-03-01" 1500000 = _
    simp only [handleTimerCompletion, hact]
    rw [if_neg hnr, if_neg htl, if_neg href, if_pos htype]
  rw [hc]
  rfl

/-- The state the C3 counterexample reaches: a second `start` issued while
the first entry is still running (in the UI: start, Back, start). -/
def sC3 : AppState :=
  handleStartPomodoro
    (handleStartPomodoro initialState "A" 25 "2024-03-01" 0)
    "B" 25 "2024-03-01" 60000

/-- Counterexample to C3 as stated: `handleStartPomodoro` has no
is-running guard, so two incomplete entries are reachable by the engine's
own operations. -/
theorem at_most_one_incomplete_counterexample :
    Reach sC3 ∧ countIncomplete sC3.db = 2 := by
  constructor
  · exact Reach.start _ "B" 25 "2024-03-01" 60000
      (Reach.start _ "A" 25 "2024-03-01" 0 Reach.init)
  · have hnA : ¬(jsTrim "A" = "" ∨ (jsTrim "A").length > 100) := by decide
    have hnB : ¬(jsTrim "B" = "" ∨ (jsTrim "B").length > 100) := by decide
    have hdur : ¬((25 : ℚ) < 1 / 100 ∨ (25 : ℚ) > 60) := by norm_num
    unfold sC3 handleStartPomodoro
    rw [if_neg hnA, if_neg hdur, if_neg hnB, if_neg hdur]
    rfl

end Pomodoro
